import Mathlib

/-
  Verification development for the mail_parser attachment-extraction NIF
  (src/native/mail_parser_nif/src/lib.rs).

  The Rust source is shallowly embedded below.  The external MIME parser
  (crate mail_parser) is treated as a black box: a parsed message is
  modelled as the list of its attachment-bearing parts, each being either
  a nested message (when `attachment.message()` returns Some) or a leaf
  part carrying the data that `Attachment::from` reads
  (attachment_name, content_type as a type/subtype pair, contents bytes).
  The filesystem is modelled as explicit state (an association list of
  file paths to byte contents plus a set of existing directories), with
  an oracle deciding which fs calls fail, mirroring how std::fs reports
  environmental I/O errors.
-/

namespace MailParserNif

/-- Attachment value produced by the extractor: mirrors the Rust struct
`Attachment { name, content_type, content_bytes }`, where `ContentBytes`
wraps a `Vec<u8>` modelled as `List Nat`. -/
structure Attachment where
  name : String
  content_type : Option String
  content_bytes : List Nat
deriving Repr, DecidableEq

/-- One attachment-bearing part of a parsed message, as seen through the
mail_parser iterator `message.attachments()`: either a nested message
(`attachment.message()` is `Some`) holding its own attachment parts, or a
leaf part carrying `attachment_name()`, `content_type()` (ctype with an
optional subtype) and `contents()`. -/
inductive AttPart where
  | nested (parts : List AttPart)
  | leaf (aname : Option String) (ctype : Option (String × Option String))
      (contents : List Nat)

/-- A parsed message, reduced to the sequence of attachment-bearing parts
its `attachments()` iterator yields, in order. -/
abbrev MessageM := List AttPart

/-- Embedding of `impl From<&MessagePart> for Attachment` (lib.rs lines
24-44): name falls back to "untitled" via `unwrap_or`, content bytes are
copied, and the content type joins ctype and subtype with "/" when a
subtype exists. -/
def Attachment.ofPart (aname : Option String)
    (ctype : Option (String × Option String)) (contents : List Nat) :
    Attachment :=
  { name := aname.getD "untitled"
    content_type := ctype.map (fun ct =>
      match ct.2 with
      | some subtype => ct.1 ++ "/" ++ subtype
      | none => ct.1)
    content_bytes := contents }

/-- Embedding of `get_attachments` (lib.rs lines 68-76): flat_map over the
message's attachment parts, recursing into nested messages and converting
leaf parts via `Attachment::from`. -/
def get_attachments : MessageM → List Attachment
  | [] => []
  | AttPart.nested m :: rest => get_attachments m ++ get_attachments rest
  | AttPart.leaf aname ctype contents :: rest =>
      Attachment.ofPart aname ctype contents :: get_attachments rest

/-- Embedding of `filter_by_mime_type` (lib.rs lines 105-120): empty
allow-list returns a clone of the input; otherwise keep exactly the
attachments whose `content_type` is `Some` and contained in the list. -/
def filter_by_mime_type (attachments : List Attachment)
    (mime_types : List String) : List Attachment :=
  if mime_types.isEmpty then
    attachments
  else
    attachments.filter (fun attachment =>
      match attachment.content_type with
      | some content_type => mime_types.contains content_type
      | none => false)

/-- Filesystem state: files as an association list from full path to byte
contents, plus the set of directories known to exist. -/
structure FsState where
  files : List (String × List Nat)
  dirs : List String
deriving Repr, DecidableEq

/-- Oracle deciding which filesystem calls fail, modelling environmental
I/O errors of std::fs: `fs::create_dir_all`, `fs::write` (keyed by path
and bytes) and `fs::remove_file`.  `some err` / `true` means the call
fails, carrying the error description std::io::Error renders. -/
structure FsOracle where
  mkdirFails : String → Option String
  writeFails : String → List Nat → Option String
  removeFails : String → Bool

/-- Store bytes at a path, overwriting an existing entry (models a
successful `fs::write`). -/
def putFile : List (String × List Nat) → String → List Nat →
    List (String × List Nat)
  | [], p, b => [(p, b)]
  | (q, c) :: rest, p, b =>
      if q = p then (p, b) :: rest else (q, c) :: putFile rest p b

/-- Remove the entry at a path (models a successful `fs::remove_file`). -/
def delFile : List (String × List Nat) → String → List (String × List Nat)
  | [], _ => []
  | (q, c) :: rest, p =>
      if q = p then delFile rest p else (q, c) :: delFile rest p

/-- Look up the bytes stored at a path. -/
def getFile : List (String × List Nat) → String → Option (List Nat)
  | [], _ => none
  | (q, c) :: rest, p => if q = p then some c else getFile rest p

/-- Paths of the directory and of all its missing intermediate
directories, as `fs::create_dir_all` creates them: every prefix of the
component list joined back with "/". -/
def ancestorPaths (directory : String) : List String :=
  let comps := directory.splitOn "/"
  (List.range comps.length).map
    (fun i => String.intercalate "/" (comps.take (i + 1)))

/-- Effect of a successful `fs::create_dir_all directory` on the state:
the directory itself and all its intermediate directories exist
afterwards, previously existing entries being kept (the call is
idempotent: it succeeds when the directory is already present, and
re-adding an existing path is harmless since only membership in `dirs`
is observed). -/
def FsState.mkdirAll (s : FsState) (directory : String) : FsState :=
  { s with dirs := directory :: (ancestorPaths directory ++ s.dirs) }

/-- Models `Path::new(directory).join(filename)` for a relative filename:
the directory, a path separator, then the filename. -/
def pathJoin (directory filename : String) : String :=
  directory ++ "/" ++ filename

/-- Cleanup loop of `write_to_disk` (lib.rs lines 138-141): for every
filename recorded so far, attempt `fs::remove_file` on its full path; the
result of each removal is discarded (`let _ = ...`), so a failed removal
leaves the file and raises nothing. -/
def cleanup (o : FsOracle) (directory : String) : List String → FsState →
    FsState
  | [], s => s
  | filename :: rest, s =>
      let filepath := pathJoin directory filename
      cleanup o directory rest
        (if o.removeFails filepath then s
         else { s with files := delFile s.files filepath })

/-- Main loop of `write_to_disk` (lib.rs lines 128-145), with the list of
filenames written so far as accumulator: write each attachment to
`directory/prefix+name`; on the first failing write, clean up all
previously written files and return the write error; afterwards return
the accumulated filenames. -/
def write_loop (o : FsOracle) (directory pfx : String) : FsState →
    List String → List Attachment → FsState × Except String (List String)
  | s, filenames, [] => (s, Except.ok filenames)
  | s, filenames, attachment :: rest =>
      let filename := pfx ++ attachment.name
      let filepath := pathJoin directory filename
      match o.writeFails filepath attachment.content_bytes with
      | none =>
          write_loop o directory pfx
            { s with files := putFile s.files filepath attachment.content_bytes }
            (filenames ++ [filename]) rest
      | some err => (cleanup o directory filenames s, Except.error err)

/-- Embedding of `write_to_disk` (lib.rs lines 122-148): ensure the
destination directory exists via `fs::create_dir_all` (propagating its
error), then run the write loop with an empty filename list. -/
def write_to_disk (o : FsOracle) (s : FsState) (attachments : List Attachment)
    (directory pfx : String) : FsState × Except String (List String) :=
  match o.mkdirFails directory with
  | some err => (s, Except.error err)
  | none => write_loop o directory pfx (s.mkdirAll directory) [] attachments

/-- Rustler error values used by this NIF: `Error::BadArg` (raised by
failing decoders), `Error::Atom` and `Error::Term` carrying a string. -/
inductive NifError where
  | badArg
  | atomErr (s : String)
  | termErr (s : String)
deriving Repr, DecidableEq

/-- Elixir terms as far as this NIF inspects them: atoms, binaries and
strings (both decode to Rust String), lists, tuples and integers. -/
inductive ETerm where
  | eatom (s : String)
  | estr (s : String)
  | elist (ts : List ETerm)
  | etuple (ts : List ETerm)
  | eint (n : Int)

/-- Rustler decoding of one keyword-list entry as `(Atom, Term)`: a
2-tuple whose first element is an atom. -/
def decodeKw1 : ETerm → Option (String × ETerm)
  | ETerm.etuple [ETerm.eatom a, v] => some (a, v)
  | _ => none

/-- Rustler decoding of a term as `Vec<(Atom, Term)>` (the keyword-list
decode at lib.rs line 161): a proper list all of whose elements decode as
atom-keyed 2-tuples. -/
def decodeKwList : ETerm → Option (List (String × ETerm))
  | ETerm.elist ts => ts.mapM decodeKw1
  | _ => none

/-- Rustler decoding of a term as a Rust `String`; anything that is not a
binary/string raises `BadArg`. -/
def decodeString : ETerm → Except NifError String
  | ETerm.estr s => Except.ok s
  | _ => Except.error NifError.badArg

/-- Rustler decoding of a term as `Vec<String>`. -/
def decodeStringList : ETerm → Except NifError (List String)
  | ETerm.elist ts => ts.mapM decodeString
  | _ => Except.error NifError.badArg

/-- Embedding of `get_mime_types_from_opts` (lib.rs lines 78-85): the
first `mime_types` entry is decoded as `Vec<String>`; absent, the default
is the empty list. -/
def get_mime_types_from_opts : List (String × ETerm) →
    Except NifError (List String)
  | [] => Except.ok []
  | (a, t) :: rest =>
      if a = "mime_types" then decodeStringList t
      else get_mime_types_from_opts rest

/-- Embedding of `get_directory_from_opts` (lib.rs lines 87-94): the
first `directory` entry is decoded as `String`; absent, the default is
".". -/
def get_directory_from_opts : List (String × ETerm) →
    Except NifError String
  | [] => Except.ok "."
  | (a, t) :: rest =>
      if a = "directory" then decodeString t
      else get_directory_from_opts rest

/-- Embedding of `get_prefix_from_opts` (lib.rs lines 96-103): the first
`prefix` entry is decoded as `String`; absent, the default is the empty
string. -/
def get_prefix_from_opts : List (String × ETerm) →
    Except NifError String
  | [] => Except.ok ""
  | (a, t) :: rest =>
      if a = "prefix" then decodeString t
      else get_prefix_from_opts rest

/-- Embedding of the NIF `extract_nested_attachments` (lib.rs lines
150-156).  `Message::parse` belongs to the external mail_parser crate and
is passed in as a function from the raw bytes to an optional parsed
message; `None` becomes `Err(Error::Atom("error"))`. -/
def extract_nested_attachments (parse : List Nat → Option MessageM)
    (raw_message : List Nat) : Except NifError (String × List Attachment) :=
  match parse raw_message with
  | some message => Except.ok ("ok", get_attachments message)
  | none => Except.error (NifError.atomErr "error")

/-- Embedding of the NIF `extract_attachments_to_disk` (lib.rs lines
158-178): decode the options as a keyword list falling back to the empty
list (`unwrap_or_default`), resolve the three options (each `?`
propagates its decode error), then parse, extract, filter and write,
wrapping a write error as `Error::Term("Failed to write to disk: " ++ e)`.
The filesystem state is threaded explicitly and returned unchanged on
every failure before the first fs call. -/
def extract_attachments_to_disk (parse : List Nat → Option MessageM)
    (o : FsOracle) (s : FsState) (raw_message : List Nat) (opts : ETerm) :
    FsState × Except NifError (String × List String) :=
  let opts_list := (decodeKwList opts).getD []
  match get_mime_types_from_opts opts_list with
  | Except.error e => (s, Except.error e)
  | Except.ok mime_types =>
    match get_directory_from_opts opts_list with
    | Except.error e => (s, Except.error e)
    | Except.ok directory =>
      match get_prefix_from_opts opts_list with
      | Except.error e => (s, Except.error e)
      | Except.ok pfx =>
        match parse raw_message with
        | some message =>
            let attachments := get_attachments message
            let filtered_attachments :=
              filter_by_mime_type attachments mime_types
            match write_to_disk o s filtered_attachments directory pfx with
            | (s2, Except.ok filenames) => (s2, Except.ok ("ok", filenames))
            | (s2, Except.error err) =>
                (s2, Except.error
                  (NifError.termErr ("Failed to write to disk: " ++ err)))
        | none => (s, Except.error (NifError.atomErr "error"))

/-- Specification-side helper: the data of the leaf parts of a message
tree, collected depth-first in parent order.  Used to state that
extraction emits exactly the leaves and never a nested-message
container. -/
def leafData : List AttPart →
    List (Option String × Option (String × Option String) × List Nat)
  | [] => []
  | AttPart.nested m :: rest => leafData m ++ leafData rest
  | AttPart.leaf aname ctype contents :: rest =>
      (aname, ctype, contents) :: leafData rest

theorem get_attachments_eq_leafData : ∀ parts : MessageM,
    get_attachments parts =
      (leafData parts).map (fun t => Attachment.ofPart t.1 t.2.1 t.2.2)
  | [] => by rw [get_attachments, leafData]; rfl
  | AttPart.nested m :: rest => by
      rw [get_attachments, leafData, List.map_append,
        ← get_attachments_eq_leafData m, ← get_attachments_eq_leafData rest]
  | AttPart.leaf aname ctype contents :: rest => by
      rw [get_attachments, leafData, List.map_cons,
        ← get_attachments_eq_leafData rest]

/-- C1: the extracted attachment list is exactly the image of the leaf
parts of the tree, collected depth-first — so it contains only leaf
attachments, and whenever a part is a well-formed nested message its
recursively extracted attachments are spliced into the result in place
of the container, which itself never contributes an entry. -/
theorem get_attachments_only_leaves :
    (∀ parts : MessageM,
      get_attachments parts =
        (leafData parts).map (fun t => Attachment.ofPart t.1 t.2.1 t.2.2))
    ∧ (∀ (m : MessageM) (rest : List AttPart),
      get_attachments (AttPart.nested m :: rest) =
        get_attachments m ++ get_attachments rest) :=
  ⟨get_attachments_eq_leafData, fun m rest => by rw [get_attachments]⟩

/-- Specification-side helper: the attachments one part of a message
contributes — a nested message contributes its own recursively extracted
attachments, a leaf contributes its single converted Attachment. -/
def visitPart : AttPart → List Attachment
  | AttPart.nested m => get_attachments m
  | AttPart.leaf aname ctype contents =>
      [Attachment.ofPart aname ctype contents]

theorem get_attachments_eq_flatMap : ∀ parts : MessageM,
    get_attachments parts = parts.flatMap visitPart
  | [] => by rw [get_attachments]; rfl
  | AttPart.nested m :: rest => by
      rw [get_attachments, List.flatMap_cons, ← get_attachments_eq_flatMap rest]
      rfl
  | AttPart.leaf aname ctype contents :: rest => by
      rw [get_attachments, List.flatMap_cons, ← get_attachments_eq_flatMap rest]
      rfl

/-- C5: extraction order is a deterministic depth-first traversal — the
output is the in-order concatenation of each part's contribution (a
nested message contributes its whole recursively extracted list in
place, preserving at every level the order of parts in their parent),
and two extractions of the same message tree yield identical lists. -/
theorem get_attachments_deterministic_dfs :
    (∀ parts : MessageM, get_attachments parts = parts.flatMap visitPart)
    ∧ (∀ (parts : MessageM) (l1 l2 : List Attachment),
      l1 = get_attachments parts → l2 = get_attachments parts → l1 = l2) :=
  ⟨get_attachments_eq_flatMap, fun _ _ _ h1 h2 => h1.trans h2.symm⟩

/-- Witness for C5 at a concrete two-level message tree. -/
theorem get_attachments_deterministic_dfs_witness :
    get_attachments
        [AttPart.nested [AttPart.leaf (some "a.txt") none [1]],
         AttPart.leaf none none [2]] =
      get_attachments
        [AttPart.nested [AttPart.leaf (some "a.txt") none [1]],
         AttPart.leaf none none [2]] :=
  get_attachments_deterministic_dfs.2
    [AttPart.nested [AttPart.leaf (some "a.txt") none [1]],
     AttPart.leaf none none [2]] _ _ rfl rfl

/-- C3: filtering with an empty allowed mime-type list is the identity
transform: the input list is returned unchanged, same elements in the
same order, whether or not attachments carry a content type. -/
theorem filter_by_mime_type_empty_identity (attachments : List Attachment) :
    filter_by_mime_type attachments [] = attachments := rfl

/-- C4: with a non-empty allowed mime-type list the filter returns
exactly the sub-sequence of attachments whose content type is present
and string-equal to one of the allowed strings — a sublist of the input
(so input order is preserved), membership is exact string equality of
the declared content type against the allow-list, and an attachment
without a content type never appears in the output. -/
theorem filter_by_mime_type_nonempty_exact (attachments : List Attachment)
    (mime_types : List String) (h : mime_types ≠ []) :
    filter_by_mime_type attachments mime_types =
      attachments.filter (fun attachment =>
        match attachment.content_type with
        | some content_type => mime_types.contains content_type
        | none => false)
    ∧ (filter_by_mime_type attachments mime_types).Sublist attachments
    ∧ (∀ a, a ∈ filter_by_mime_type attachments mime_types ↔
        a ∈ attachments ∧ ∃ ct, a.content_type = some ct ∧ ct ∈ mime_types)
    ∧ (∀ a, a ∈ filter_by_mime_type attachments mime_types →
        a.content_type ≠ none) := by
  have hne : mime_types.isEmpty = false := by
    cases mime_types with
    | nil => exact absurd rfl h
    | cons x xs => rfl
  have heq : filter_by_mime_type attachments mime_types =
      attachments.filter (fun attachment =>
        match attachment.content_type with
        | some content_type => mime_types.contains content_type
        | none => false) := by
    unfold filter_by_mime_type
    rw [hne]
    rfl
  refine ⟨heq, ?_, ?_, ?_⟩
  · rw [heq]; exact List.filter_sublist attachments
  · intro a
    rw [heq, List.mem_filter]
    constructor
    · rintro ⟨ha, hp⟩
      refine ⟨ha, ?_⟩
      cases hct : a.content_type with
      | none => rw [hct] at hp; exact absurd hp (by simp)
      | some ct =>
          rw [hct] at hp
          exact ⟨ct, rfl, by simpa [List.elem_iff] using hp⟩
    · rintro ⟨ha, ct, hct, hmem⟩
      refine ⟨ha, ?_⟩
      rw [hct]
      simpa [List.elem_iff] using hmem
  · intro a ha hnone
    rw [heq, List.mem_filter] at ha
    rw [hnone] at ha
    exact absurd ha.2 (by simp)

/-- Witness for C4 on a concrete three-element list holding an image/png
attachment, a text/plain attachment and one with no content type. -/
theorem filter_by_mime_type_nonempty_exact_witness :
    filter_by_mime_type
        [Attachment.mk "a" (some "image/png") [1],
         Attachment.mk "b" (some "text/plain") [2],
         Attachment.mk "c" none [3]] ["image/png"] =
      List.filter (fun attachment =>
        match attachment.content_type with
        | some content_type => List.contains ["image/png"] content_type
        | none => false)
        [Attachment.mk "a" (some "image/png") [1],
         Attachment.mk "b" (some "text/plain") [2],
         Attachment.mk "c" none [3]]
    ∧ (filter_by_mime_type
        [Attachment.mk "a" (some "image/png") [1],
         Attachment.mk "b" (some "text/plain") [2],
         Attachment.mk "c" none [3]] ["image/png"]).Sublist
        [Attachment.mk "a" (some "image/png") [1],
         Attachment.mk "b" (some "text/plain") [2],
         Attachment.mk "c" none [3]]
    ∧ (∀ a, a ∈ filter_by_mime_type
        [Attachment.mk "a" (some "image/png") [1],
         Attachment.mk "b" (some "text/plain") [2],
         Attachment.mk "c" none [3]] ["image/png"] ↔
        a ∈ [Attachment.mk "a" (some "image/png") [1],
             Attachment.mk "b" (some "text/plain") [2],
             Attachment.mk "c" none [3]]
          ∧ ∃ ct, a.content_type = some ct ∧ ct ∈ ["image/png"])
    ∧ (∀ a, a ∈ filter_by_mime_type
        [Attachment.mk "a" (some "image/png") [1],
         Attachment.mk "b" (some "text/plain") [2],
         Attachment.mk "c" none [3]] ["image/png"] →
        a.content_type ≠ none) :=
  filter_by_mime_type_nonempty_exact
    [Attachment.mk "a" (some "image/png") [1],
     Attachment.mk "b" (some "text/plain") [2],
     Attachment.mk "c" none [3]] ["image/png"] (by decide)

/-- C7: a leaf part with no declared attachment name is converted to an
Attachment whose name is the literal string "untitled", and extraction
of such a part succeeds, producing exactly that attachment. -/
theorem attachment_missing_name_untitled :
    (∀ ctype contents,
      (Attachment.ofPart none ctype contents).name = "untitled")
    ∧ (∀ ctype contents,
      get_attachments [AttPart.leaf none ctype contents] =
        [Attachment.ofPart none ctype contents]) := by
  constructor
  · intro ctype contents; rfl
  · intro ctype contents
    rw [get_attachments, get_attachments]

/-- C8: the converted content type is "type/subtype" when the part
declares a type and a subtype, just "type" when the part declares a type
but no subtype, and absent when the part declares no content type. -/
theorem attachment_content_type_format :
    (∀ (t st : String) aname contents,
      (Attachment.ofPart aname (some (t, some st)) contents).content_type =
        some (t ++ "/" ++ st))
    ∧ (∀ (t : String) aname contents,
      (Attachment.ofPart aname (some (t, none)) contents).content_type =
        some t)
    ∧ (∀ aname contents,
      (Attachment.ofPart aname none contents).content_type = none) :=
  ⟨fun _ _ _ _ => rfl, fun _ _ _ => rfl, fun _ _ => rfl⟩

/-- Concrete oracle on which every filesystem call succeeds, used by
witnesses. -/
def oracleOk : FsOracle :=
  { mkdirFails := fun _ => none
    writeFails := fun _ _ => none
    removeFails := fun _ => false }

/-- C9: when the raw bytes do not parse as a well-formed message, both
NIFs return the generic parse error `Error::Atom("error")` with no
attachment list and no filenames, and in the extract-and-store path the
filesystem state is returned untouched — no filtering or disk write is
attempted after a parse failure (the option hypotheses say the three
options resolved, which always holds e.g. for an empty option list). -/
theorem parse_failure_generic_error (parse : List Nat → Option MessageM)
    (o : FsOracle) (s : FsState) (raw_message : List Nat) (opts : ETerm)
    (mt : List String) (d p : String)
    (hparse : parse raw_message = none)
    (hmt : get_mime_types_from_opts ((decodeKwList opts).getD []) =
      Except.ok mt)
    (hd : get_directory_from_opts ((decodeKwList opts).getD []) =
      Except.ok d)
    (hp : get_prefix_from_opts ((decodeKwList opts).getD []) =
      Except.ok p) :
    extract_nested_attachments parse raw_message =
      Except.error (NifError.atomErr "error")
    ∧ extract_attachments_to_disk parse o s raw_message opts =
      (s, Except.error (NifError.atomErr "error")) := by
  constructor
  · unfold extract_nested_attachments
    rw [hparse]
  · simp only [extract_attachments_to_disk, hmt, hd, hp, hparse]

/-- Witness for C9: a parse function rejecting every input, empty
options. -/
theorem parse_failure_generic_error_witness :
    extract_nested_attachments (fun _ => none) [0, 1] =
      Except.error (NifError.atomErr "error")
    ∧ extract_attachments_to_disk (fun _ => none) oracleOk
        (FsState.mk [] []) [0, 1] (ETerm.elist []) =
      (FsState.mk [] [], Except.error (NifError.atomErr "error")) :=
  parse_failure_generic_error (fun _ => none) oracleOk (FsState.mk [] [])
    [0, 1] (ETerm.elist []) [] "." "" rfl rfl rfl rfl

/-- C10: an options term that does not decode as a keyword list of
(atom, value) pairs never fails the call: the NIF behaves exactly as if
called with an empty option list, and the empty option list resolves to
the three defaults (no mime filtering, directory ".", empty prefix).
Moreover the options are resolved before parsing or any filesystem
effect: whenever an option value fails to decode, the call returns that
decode error with the state untouched, for every parse function. -/
theorem opts_decode_fallback_defaults (parse : List Nat → Option MessageM)
    (o : FsOracle) (s : FsState) (raw_message : List Nat) (opts : ETerm)
    (hdec : decodeKwList opts = none) :
    extract_attachments_to_disk parse o s raw_message opts =
      extract_attachments_to_disk parse o s raw_message (ETerm.elist [])
    ∧ get_mime_types_from_opts [] = Except.ok []
    ∧ get_directory_from_opts [] = Except.ok "."
    ∧ get_prefix_from_opts [] = Except.ok ""
    ∧ (∀ (opts2 : ETerm) (e : NifError),
        get_mime_types_from_opts ((decodeKwList opts2).getD []) =
          Except.error e →
        extract_attachments_to_disk parse o s raw_message opts2 =
          (s, Except.error e)) := by
  refine ⟨?_, rfl, rfl, rfl, ?_⟩
  · have h1 : (decodeKwList opts).getD [] = [] := by rw [hdec]; rfl
    have h2 : (decodeKwList (ETerm.elist [])).getD [] = [] := rfl
    simp only [extract_attachments_to_disk, h1, h2]
  · intro opts2 e h
    simp only [extract_attachments_to_disk, h]

/-- Witness for C10: an integer options term, which is not a keyword
list. -/
theorem opts_decode_fallback_defaults_witness :
    extract_attachments_to_disk (fun _ => none) oracleOk
        (FsState.mk [] []) [7] (ETerm.eint 0) =
      extract_attachments_to_disk (fun _ => none) oracleOk
        (FsState.mk [] []) [7] (ETerm.elist [])
    ∧ get_mime_types_from_opts [] = Except.ok []
    ∧ get_directory_from_opts [] = Except.ok "."
    ∧ get_prefix_from_opts [] = Except.ok ""
    ∧ (∀ (opts2 : ETerm) (e : NifError),
        get_mime_types_from_opts ((decodeKwList opts2).getD []) =
          Except.error e →
        extract_attachments_to_disk (fun _ => none) oracleOk
          (FsState.mk [] []) [7] opts2 = (FsState.mk [] [], Except.error e)) :=
  opts_decode_fallback_defaults (fun _ => none) oracleOk
    (FsState.mk [] []) [7] (ETerm.eint 0) rfl

/-- Specification-side helper: the filesystem state after successfully
writing every attachment of a list, in order, to
`directory/prefix+name`. -/
def writeAll (directory pfx : String) : FsState → List Attachment → FsState
  | s, [] => s
  | s, attachment :: rest =>
      let filepath := pathJoin directory (pfx ++ attachment.name)
      writeAll directory pfx
        { s with files := putFile s.files filepath attachment.content_bytes }
        rest

theorem writeAll_dirs (directory pfx : String) :
    ∀ (attachments : List Attachment) (s : FsState),
      (writeAll directory pfx s attachments).dirs = s.dirs
  | [], s => rfl
  | attachment :: rest, s => by
      simp only [writeAll]
      exact writeAll_dirs directory pfx rest _

theorem writeAll_append (directory pfx : String) :
    ∀ (l1 l2 : List Attachment) (s : FsState),
      writeAll directory pfx s (l1 ++ l2) =
        writeAll directory pfx (writeAll directory pfx s l1) l2
  | [], l2, s => rfl
  | attachment :: rest, l2, s => by
      rw [List.cons_append]
      simp only [writeAll]
      exact writeAll_append directory pfx rest l2 _

theorem getFile_putFile_same (p : String) (b : List Nat) :
    ∀ fs : List (String × List Nat), getFile (putFile fs p b) p = some b
  | [] => by simp [putFile, getFile]
  | (q, c) :: rest => by
      by_cases hq : q = p
      · simp [putFile, getFile, hq]
      · simp [putFile, getFile, hq, getFile_putFile_same p b rest]

theorem getFile_putFile_other (p q : String) (b : List Nat) (hne : q ≠ p) :
    ∀ fs : List (String × List Nat), getFile (putFile fs q b) p = getFile fs p
  | [] => by simp [putFile, getFile, hne]
  | (r, c) :: rest => by
      by_cases hr : r = q
      · simp [putFile, getFile, hr, hne]
      · by_cases hp : r = p
        · simp [putFile, getFile, hr, hp, Ne.symm hne]
        · simp [putFile, getFile, hr, hp, getFile_putFile_other p q b hne rest]

theorem getFile_delFile_same (p : String) :
    ∀ fs : List (String × List Nat), getFile (delFile fs p) p = none
  | [] => rfl
  | (q, c) :: rest => by
      by_cases hq : q = p
      · simp [delFile, hq, getFile_delFile_same p rest]
      · simp [delFile, getFile, hq, getFile_delFile_same p rest]

theorem getFile_delFile_none (p q : String) :
    ∀ fs : List (String × List Nat), getFile fs p = none →
      getFile (delFile fs q) p = none
  | [] => fun _ => rfl
  | (r, c) :: rest => by
      intro h
      rw [getFile] at h
      by_cases hr : r = p
      · simp [hr] at h
      · rw [delFile]
        by_cases hq : r = q
        · simp only [if_pos hq]
          exact getFile_delFile_none p q rest (by simpa [hr] using h)
        · simp only [if_neg hq, getFile, if_neg hr]
          exact getFile_delFile_none p q rest (by simpa [hr] using h)

theorem string_append_left_cancel {a b c : String} (h : a ++ b = a ++ c) :
    b = c := by
  have h2 : (a ++ b).data = (a ++ c).data := by rw [h]
  rw [String.data_append, String.data_append] at h2
  have h3 := List.append_cancel_left h2
  cases b; cases c
  exact congrArg String.mk h3

theorem pathJoin_name_ne (directory pfx n1 n2 : String) (hne : n1 ≠ n2) :
    pathJoin directory (pfx ++ n1) ≠ pathJoin directory (pfx ++ n2) := by
  intro h
  unfold pathJoin at h
  rw [String.append_assoc, String.append_assoc] at h
  exact hne (string_append_left_cancel (string_append_left_cancel
    (string_append_left_cancel h)))

theorem getFile_writeAll_other (directory pfx : String) (p : String) :
    ∀ (attachments : List Attachment) (s : FsState),
      (∀ a ∈ attachments, pathJoin directory (pfx ++ a.name) ≠ p) →
      getFile (writeAll directory pfx s attachments).files p =
        getFile s.files p
  | [], s, _ => rfl
  | attachment :: rest, s, h => by
      simp only [writeAll]
      rw [getFile_writeAll_other directory pfx p rest _
        (fun a ha => h a (List.mem_cons_of_mem attachment ha))]
      exact getFile_putFile_other p _ attachment.content_bytes
        (h attachment (List.mem_cons_self attachment rest)) s.files

theorem cleanup_preserves_none (o : FsOracle) (directory p : String) :
    ∀ (filenames : List String) (s : FsState), getFile s.files p = none →
      getFile (cleanup o directory filenames s).files p = none
  | [], s, h => h
  | filename :: rest, s, h => by
      rw [cleanup]
      by_cases hr : o.removeFails (pathJoin directory filename)
      · simp only [if_pos hr]
        exact cleanup_preserves_none o directory p rest s h
      · simp only [if_neg hr]
        exact cleanup_preserves_none o directory p rest _
          (getFile_delFile_none p (pathJoin directory filename) s.files h)

theorem cleanup_removes (o : FsOracle) (directory : String)
    (hrm : ∀ fp, o.removeFails fp = false) :
    ∀ (filenames : List String) (s : FsState) (fn : String),
      fn ∈ filenames →
      getFile (cleanup o directory filenames s).files (pathJoin directory fn) =
        none
  | filename :: rest, s, fn, hmem => by
      rw [cleanup]
      simp only [hrm (pathJoin directory filename), Bool.false_eq_true,
        if_false]
      rcases List.mem_cons.mp hmem with heq | hmem2
      · subst heq
        exact cleanup_preserves_none o directory _ rest _
          (getFile_delFile_same (pathJoin directory fn) s.files)
      · exact cleanup_removes o directory hrm rest _ fn hmem2

theorem write_loop_ok (o : FsOracle) (directory pfx : String) :
    ∀ (attachments : List Attachment) (s : FsState)
      (filenames : List String),
      (∀ a ∈ attachments,
        o.writeFails (pathJoin directory (pfx ++ a.name)) a.content_bytes =
          none) →
      write_loop o directory pfx s filenames attachments =
        (writeAll directory pfx s attachments,
         Except.ok (filenames ++ attachments.map (fun a => pfx ++ a.name)))
  | [], s, filenames, _ => by simp [write_loop, writeAll]
  | attachment :: rest, s, filenames, h => by
      rw [write_loop]
      simp only [h attachment (List.mem_cons_self attachment rest)]
      rw [write_loop_ok o directory pfx rest _ _
        (fun a ha => h a (List.mem_cons_of_mem attachment ha))]
      simp [writeAll]

theorem write_loop_fail (o : FsOracle) (directory pfx : String)
    (afail : Attachment) (rest2 : List Attachment) (e : String)
    (hfail : o.writeFails (pathJoin directory (pfx ++ afail.name))
      afail.content_bytes = some e) :
    ∀ (done : List Attachment) (s : FsState) (filenames : List String),
      (∀ a ∈ done,
        o.writeFails (pathJoin directory (pfx ++ a.name)) a.content_bytes =
          none) →
      write_loop o directory pfx s filenames (done ++ afail :: rest2) =
        (cleanup o directory
          (filenames ++ done.map (fun a => pfx ++ a.name))
          (writeAll directory pfx s done),
         Except.error e)
  | [], s, filenames, _ => by
      simp only [List.nil_append, write_loop, hfail, List.map_nil,
        List.append_nil, writeAll]
  | attachment :: done2, s, filenames, h => by
      rw [List.cons_append, write_loop]
      simp only [h attachment (List.mem_cons_self attachment done2)]
      rw [write_loop_fail o directory pfx afail rest2 e hfail done2 _ _
        (fun a ha => h a (List.mem_cons_of_mem attachment ha))]
      simp [writeAll]

/-- C6: when every write succeeds, the disk writer first makes the
destination directory and all its intermediate directories exist, writes
each attachment to directory/prefix+name, and returns Ok with the
complete list of filenames prefix+name in input order; the bytes on disk
at an attachment's path equal that attachment's content_bytes (stated
for every attachment not overwritten by a later attachment of the same
name, overwriting being silent by design). -/
theorem write_to_disk_all_success (o : FsOracle) (s : FsState)
    (attachments : List Attachment) (directory pfx : String)
    (hmkdir : o.mkdirFails directory = none)
    (hw : ∀ a ∈ attachments,
      o.writeFails (pathJoin directory (pfx ++ a.name)) a.content_bytes =
        none) :
    write_to_disk o s attachments directory pfx =
      (writeAll directory pfx (s.mkdirAll directory) attachments,
       Except.ok (attachments.map (fun a => pfx ++ a.name)))
    ∧ directory ∈ (write_to_disk o s attachments directory pfx).1.dirs
    ∧ (∀ d2 ∈ ancestorPaths directory,
        d2 ∈ (write_to_disk o s attachments directory pfx).1.dirs)
    ∧ (∀ (done rest2 : List Attachment) (a : Attachment),
        attachments = done ++ a :: rest2 →
        (∀ b ∈ rest2, b.name ≠ a.name) →
        getFile (write_to_disk o s attachments directory pfx).1.files
          (pathJoin directory (pfx ++ a.name)) = some a.content_bytes) := by
  have heq : write_to_disk o s attachments directory pfx =
      (writeAll directory pfx (s.mkdirAll directory) attachments,
       Except.ok (attachments.map (fun a => pfx ++ a.name))) := by
    unfold write_to_disk
    rw [hmkdir]
    rw [write_loop_ok o directory pfx attachments (s.mkdirAll directory) [] hw]
    rw [List.nil_append]
  have hdirs : (write_to_disk o s attachments directory pfx).1.dirs =
      directory :: (ancestorPaths directory ++ s.dirs) := by
    rw [heq]
    exact writeAll_dirs directory pfx attachments (s.mkdirAll directory)
  refine ⟨heq, ?_, ?_, ?_⟩
  · rw [hdirs]
    exact List.mem_cons_self directory _
  · intro d2 hd2
    rw [hdirs]
    exact List.mem_cons_of_mem directory (List.mem_append_left s.dirs hd2)
  · intro done rest2 a hsplit hlast
    rw [heq]
    rw [hsplit, writeAll_append]
    have hstep : writeAll directory pfx
        (writeAll directory pfx (s.mkdirAll directory) done) (a :: rest2) =
        writeAll directory pfx
          { writeAll directory pfx (s.mkdirAll directory) done with
            files := putFile
              (writeAll directory pfx (s.mkdirAll directory) done).files
              (pathJoin directory (pfx ++ a.name)) a.content_bytes }
          rest2 := by
      simp only [writeAll]
    rw [hstep]
    rw [getFile_writeAll_other directory pfx
      (pathJoin directory (pfx ++ a.name)) rest2 _
      (fun b hb => pathJoin_name_ne directory pfx b.name a.name (hlast b hb))]
    exact getFile_putFile_same (pathJoin directory (pfx ++ a.name))
      a.content_bytes _

/-- Witness for C6: two attachments written into directory "out" with
prefix "p_" on the all-success oracle. -/
theorem write_to_disk_all_success_witness :
    write_to_disk oracleOk (FsState.mk [] [])
        [Attachment.mk "a" none [1], Attachment.mk "b" none [2]] "out" "p_" =
      (writeAll "out" "p_" ((FsState.mk [] []).mkdirAll "out")
        [Attachment.mk "a" none [1], Attachment.mk "b" none [2]],
       Except.ok (List.map (fun a => "p_" ++ a.name)
         [Attachment.mk "a" none [1], Attachment.mk "b" none [2]]))
    ∧ "out" ∈ (write_to_disk oracleOk (FsState.mk [] [])
        [Attachment.mk "a" none [1], Attachment.mk "b" none [2]]
        "out" "p_").1.dirs
    ∧ (∀ d2 ∈ ancestorPaths "out",
        d2 ∈ (write_to_disk oracleOk (FsState.mk [] [])
          [Attachment.mk "a" none [1], Attachment.mk "b" none [2]]
          "out" "p_").1.dirs)
    ∧ (∀ (done rest2 : List Attachment) (a : Attachment),
        [Attachment.mk "a" none [1], Attachment.mk "b" none [2]] =
          done ++ a :: rest2 →
        (∀ b ∈ rest2, b.name ≠ a.name) →
        getFile (write_to_disk oracleOk (FsState.mk [] [])
            [Attachment.mk "a" none [1], Attachment.mk "b" none [2]]
            "out" "p_").1.files
          (pathJoin "out" ("p_" ++ a.name)) = some a.content_bytes) :=
  write_to_disk_all_success oracleOk (FsState.mk [] [])
    [Attachment.mk "a" none [1], Attachment.mk "b" none [2]] "out" "p_"
    rfl (fun _ _ => rfl)

/-- C2: when the write of some attachment fails (all earlier writes
having succeeded), the disk writer returns exactly the underlying write
error — for every removal oracle, so a failing deletion is swallowed and
never replaces or augments the error — and the final state is the
cleanup of precisely the files written earlier in the batch: no later
attachment is ever written.  When the deletions succeed, every file
written earlier in the batch is absent from the final state. -/
theorem write_to_disk_rollback_on_failure (o : FsOracle) (s : FsState)
    (attachments done rest2 : List Attachment) (afail : Attachment)
    (directory pfx : String) (e : String)
    (hsplit : attachments = done ++ afail :: rest2)
    (hmkdir : o.mkdirFails directory = none)
    (hdone : ∀ a ∈ done,
      o.writeFails (pathJoin directory (pfx ++ a.name)) a.content_bytes =
        none)
    (hfail : o.writeFails (pathJoin directory (pfx ++ afail.name))
      afail.content_bytes = some e) :
    write_to_disk o s attachments directory pfx =
      (cleanup o directory (done.map (fun a => pfx ++ a.name))
        (writeAll directory pfx (s.mkdirAll directory) done),
       Except.error e)
    ∧ ((∀ fp, o.removeFails fp = false) →
        ∀ a ∈ done,
          getFile (write_to_disk o s attachments directory pfx).1.files
            (pathJoin directory (pfx ++ a.name)) = none) := by
  have heq : write_to_disk o s attachments directory pfx =
      (cleanup o directory (done.map (fun a => pfx ++ a.name))
        (writeAll directory pfx (s.mkdirAll directory) done),
       Except.error e) := by
    unfold write_to_disk
    rw [hmkdir, hsplit]
    rw [write_loop_fail o directory pfx afail rest2 e hfail done
      (s.mkdirAll directory) [] hdone]
    rw [List.nil_append]
  refine ⟨heq, ?_⟩
  intro hrm a ha
  rw [heq]
  exact cleanup_removes o directory hrm
    (done.map (fun a => pfx ++ a.name)) _ (pfx ++ a.name)
    (List.mem_map_of_mem (fun a => pfx ++ a.name) ha)

/-- Witness for C2: three attachments, the second write failing with
"disk full"; the removal oracle succeeds so the first file is gone. -/
theorem write_to_disk_rollback_on_failure_witness :
    write_to_disk
        (FsOracle.mk (fun _ => none)
          (fun fp _ => if fp = "out/b" then some "disk full" else none)
          (fun _ => false))
        (FsState.mk [] [])
        [Attachment.mk "a" none [1], Attachment.mk "b" none [2],
         Attachment.mk "c" none [3]] "out" "" =
      (cleanup
        (FsOracle.mk (fun _ => none)
          (fun fp _ => if fp = "out/b" then some "disk full" else none)
          (fun _ => false))
        "out" (List.map (fun a => "" ++ a.name) [Attachment.mk "a" none [1]])
        (writeAll "out" "" ((FsState.mk [] []).mkdirAll "out")
          [Attachment.mk "a" none [1]]),
       Except.error "disk full")
    ∧ ((∀ fp, (FsOracle.mk (fun _ => none)
          (fun fp2 _ => if fp2 = "out/b" then some "disk full" else none)
          (fun _ => false)).removeFails fp = false) →
        ∀ a ∈ [Attachment.mk "a" none [1]],
          getFile (write_to_disk
            (FsOracle.mk (fun _ => none)
              (fun fp _ => if fp = "out/b" then some "disk full" else none)
              (fun _ => false))
            (FsState.mk [] [])
            [Attachment.mk "a" none [1], Attachment.mk "b" none [2],
             Attachment.mk "c" none [3]] "out" "").1.files
            (pathJoin "out" ("" ++ a.name)) = none) :=
  write_to_disk_rollback_on_failure
    (FsOracle.mk (fun _ => none)
      (fun fp _ => if fp = "out/b" then some "disk full" else none)
      (fun _ => false))
    (FsState.mk [] [])
    [Attachment.mk "a" none [1], Attachment.mk "b" none [2],
     Attachment.mk "c" none [3]]
    [Attachment.mk "a" none [1]] [Attachment.mk "c" none [3]]
    (Attachment.mk "b" none [2]) "out" "" "disk full"
    rfl rfl (by intro a ha; simp at ha; subst ha; rfl) (by decide)

end MailParserNif
